import Mathlib

/-!
Verification development for the code_analysis_tool repository.

The Python sources are shallowly embedded:
* Python `str` values that undergo character-level processing are `List Char`;
  analysis texts assembled only by concatenation stay `String`.
* `ast` trees are the inductive `Node` below; `ast.parse` itself is not
  reimplemented, so code whose behaviour depends on the parse outcome takes
  the parse outcome (`Except Unit Node`) as input.
* The external inference endpoint is a deterministic oracle
  `Nat → ApiOutcome` giving the outcome of the i-th request of a file,
  mirroring the four outcomes distinguished by the source
  (HTTP 200 with `choices`, HTTP 200 without, non-200 status, raised
  exception).
* `asyncio` scheduling for the semaphore claim is a small-step transition
  system `Step` over the states a file-processing task can occupy.
-/

/-! ## call_graph.py -/

/-- Python `ast` nodes, restricted to the constructors the repository's
traversals distinguish.  A `functionDef` carries its body and decorator
list (the two groups of child nodes `ast.iter_child_nodes` yields, in
field order; the `arguments` child contains no bare calls relevant here).
Statements such as `x()` appear as `exprStmt (call ...)`, exactly as in
CPython where the call is wrapped in an `Expr` node. -/
inductive Node where
  | module (body : List Node)
  | functionDef (nm : String) (body : List Node) (decorators : List Node)
  | classDef (nm : String) (body : List Node)
  | exprStmt (value : Node)
  | call (func : Node) (args : List Node)
  | nameExpr (id : String)
  | importStmt (names : List String)
  | importFrom (moduleName : Option String) (names : List String)
  | passStmt

mutual

/-- Loop body of `extract_calls` in call_graph.py: the dispatch performed on
each child yielded by `ast.iter_child_nodes`.  A `FunctionDef`/`ClassDef`
child is recursed into with the child's name as current caller (the
recursive `extract_calls(child, child.name)` call is inlined here so the
recursion is structural); a `Call` child whose `func` is a bare `Name`
records an edge when a current caller exists; every other child kind is
skipped without recursion — in particular an `Expr` statement wrapping a
call is skipped. -/
def extract_child (child : Node) (current_function : Option String) :
    List (String × String) :=
  match child with
  | .functionDef nm body decs =>
    extract_children body (some nm) ++ extract_children decs (some nm)
  | .call f _ =>
    match f with
    | .nameExpr id =>
      match current_function with
      | some caller => [(caller, id)]
      | none => []
    | _ => []
  | .classDef nm body => extract_children body (some nm)
  | _ => []

/-- The `for child in ast.iter_child_nodes(node)` loop of `extract_calls`. -/
def extract_children (cs : List Node) (current_function : Option String) :
    List (String × String) :=
  match cs with
  | [] => []
  | c :: rest =>
    extract_child c current_function ++ extract_children rest current_function

end

/-- `extract_calls(node, current_function=None)` from call_graph.py:
iterates the direct children of `node` and dispatches on each child
(`extract_child`). -/
def extract_calls (node : Node) (current_function : Option String) :
    List (String × String) :=
  match node with
  | .module body => extract_children body current_function
  | .functionDef _ body decs =>
    extract_children body current_function ++
      extract_children decs current_function
  | .classDef _ body => extract_children body current_function
  | .exprStmt v => extract_child v current_function
  | .call f args =>
    extract_child f current_function ++ extract_children args current_function
  | _ => []

/-- `create_call_graph` from call_graph.py: `parse_file` reads and parses the
file — a parse failure raises and propagates (there is no handler) — and on
success `extract_calls(tree)` runs with no current caller.  The parse
outcome stands in for `ast.parse`. -/
def create_call_graph (parsed : Except Unit Node) :
    Except Unit (List (String × String)) :=
  match parsed with
  | .ok tree => .ok (extract_calls tree none)
  | .error e => .error e

/-- `process_directory` from call_graph.py: walks the tree extending
`combined_calls` per file; an exception from `create_call_graph` is not
caught, so it aborts the whole scan and the accumulated list is lost. -/
def process_directory (files : List (Except Unit Node)) :
    Except Unit (List (String × String)) :=
  match files with
  | [] => .ok []
  | f :: rest =>
    match create_call_graph f with
    | .ok calls =>
      match process_directory rest with
      | .ok restCalls => .ok (calls ++ restCalls)
      | .error e => .error e
    | .error e => .error e

/-! ## code_analyzer.py : structured extraction and regex fallback -/

/-- The result triple of `extract_imports_and_functions`. -/
structure Extracted where
  imports : List String
  functions : List String
  classes : List String
deriving DecidableEq, Repr

def Extracted.app (a b : Extracted) : Extracted :=
  ⟨a.imports ++ b.imports, a.functions ++ b.functions, a.classes ++ b.classes⟩

mutual

/-- Collection performed by the `ast.walk` loop of
`extract_imports_and_functions`: every `Import` / `ImportFrom` /
`FunctionDef` / `ClassDef` node anywhere in the tree contributes.
(`ast.walk` enumerates breadth-first; this traversal is depth-first, which
yields the same elements — only the claims' membership matters, not
order.)  `ImportFrom` records `f"{module}.{name}"` with `module` replaced
by the empty string when absent, as in the source. -/
def collectNode (n : Node) : Extracted :=
  match n with
  | .module body => collectList body
  | .functionDef nm body decs =>
    (Extracted.mk [] [nm] []).app ((collectList body).app (collectList decs))
  | .classDef nm body => (Extracted.mk [] [] [nm]).app (collectList body)
  | .exprStmt v => collectNode v
  | .call f args => (collectNode f).app (collectList args)
  | .nameExpr _ => ⟨[], [], []⟩
  | .importStmt names => ⟨names, [], []⟩
  | .importFrom m names =>
    ⟨names.map (fun nm => (m.getD "") ++ "." ++ nm), [], []⟩
  | .passStmt => ⟨[], [], []⟩

def collectList (ns : List Node) : Extracted :=
  match ns with
  | [] => ⟨[], [], []⟩
  | n :: rest => (collectNode n).app (collectList rest)

end

/-- Python `\s` on ASCII text: space, tab, newline, carriage return,
vertical tab, form feed. -/
def isPySpace (c : Char) : Bool :=
  c = ' ' || c = '\t' || c = '\n' || c = '\r' || c = '\x0b' || c = '\x0c'

/-- Python `\w` on ASCII text: letters, digits, underscore. -/
def isWordChar (c : Char) : Bool :=
  c.isAlpha || c.isDigit || c = '_'

/-- Consume a literal prefix, returning the remaining characters. -/
def matchLit (lit cs : List Char) : Option (List Char) :=
  match lit, cs with
  | [], rest => some rest
  | _ :: _, [] => none
  | l :: ls, c :: rest => if c = l then matchLit ls rest else none

/-- Greedy `p+`: at least one character satisfying `p`; returns the
captured run and the remainder.  Greediness is exact here because in the
three source patterns the class following `\s+` is disjoint from it and
`(\w+)` is pattern-final, so the regex engine never backtracks into the
run. -/
def takePlus (p : Char → Bool) (cs : List Char) :
    Option (List Char × List Char) :=
  let cap := cs.takeWhile p
  if cap.isEmpty then none else some (cap, cs.dropWhile p)

/-- One attempt of `(?:lit1|lit2|...)\s+(\w+)` anchored at the current
position, trying the alternatives left to right as the engine does. -/
def tryAlts (alts : List (List Char)) (cs : List Char) :
    Option (List Char × List Char) :=
  match alts with
  | [] => none
  | lit :: restAlts =>
    match matchLit lit cs with
    | some afterLit =>
      match takePlus isPySpace afterLit with
      | some (_, afterSp) =>
        match takePlus isWordChar afterSp with
        | some (cap, afterWord) => some (cap, afterWord)
        | none => tryAlts restAlts cs
      | none => tryAlts restAlts cs
    | none => tryAlts restAlts cs

/-- `re.findall` for the patterns above: scan left to right, on a match
capture the group and continue after the match (non-overlapping),
otherwise advance one character.  The `fuel` argument only bounds the
recursion; it starts at the input length and every step consumes at least
one input character for the nonempty literals used here, so it never runs
out before the scan ends. -/
def findallAux (alts : List (List Char)) (fuel : Nat) (cs : List Char) :
    List (List Char) :=
  match fuel, cs with
  | 0, _ => []
  | _ + 1, [] => []
  | fuel + 1, c :: rest =>
    match tryAlts alts (c :: rest) with
    | some (cap, after) => cap :: findallAux alts fuel after
    | none => findallAux alts fuel rest

def re_findall (alts : List (List Char)) (cs : List Char) : List String :=
  (findallAux alts cs.length cs).map (fun l => String.mk l)

/-- `r'(?:def|function)\s+(\w+)'` applied to the raw text. -/
def findFunctions (cs : List Char) : List String :=
  re_findall ["def".toList, "function".toList] cs

/-- `r'class\s+(\w+)'` applied to the raw text. -/
def findClasses (cs : List Char) : List String :=
  re_findall ["class".toList] cs

/-- `r'(?:import|from)\s+(\w+)'` applied to the raw text. -/
def findImports (cs : List Char) : List String :=
  re_findall ["import".toList, "from".toList] cs

/-- A source file as `extract_imports_and_functions` sees it: the raw
characters together with the outcome of `ast.parse` on them (`ast.parse`
is not reimplemented; `.error` stands for a raised `SyntaxError`). -/
structure SourceText where
  chars : List Char
  parsed : Except Unit Node

/-- `extract_imports_and_functions` from code_analyzer.py: on a successful
parse, collect imports, functions and classes from the tree; on
`SyntaxError`, fall back to the three regex patterns over the raw text. -/
def extract_imports_and_functions (s : SourceText) : Extracted :=
  match s.parsed with
  | .ok tree => collectNode tree
  | .error _ =>
    { imports := findImports s.chars
      functions := findFunctions s.chars
      classes := findClasses s.chars }

/-! ## code_analyzer.py : split_content -/

/-- Python `content.split('\n')`: the (possibly empty) segments between
newline characters; always at least one segment. -/
def splitLines (cs : List Char) : List (List Char) :=
  match cs with
  | [] => [[]]
  | c :: rest =>
    if c = '\n' then [] :: splitLines rest
    else
      match splitLines rest with
      | [] => [[c]]
      | l :: ls => (c :: l) :: ls

/-- The accumulation loop of `split_content`: `current` is the chunk being
grown; when adding the next line would make `len(current) + len(line)`
exceed `max_chars`, the current chunk is emitted (even if empty) and the
line starts a fresh chunk; every line gets `'\n'` appended; a nonempty
final chunk is emitted at the end. -/
def splitLoop (max_chars : Nat) (lines : List (List Char))
    (current : List Char) : List (List Char) :=
  match lines with
  | [] => if current.isEmpty then [] else [current]
  | line :: rest =>
    if max_chars < current.length + line.length then
      current :: splitLoop max_chars rest (line ++ ['\n'])
    else
      splitLoop max_chars rest (current ++ line ++ ['\n'])

/-- `split_content(content, max_chars=70000)` from code_analyzer.py. -/
def split_content (content : List Char) (max_chars : Nat) :
    List (List Char) :=
  splitLoop max_chars (splitLines content) []

/-! ## code_analyzer.py : load_cache over JSON documents -/

/-- JSON values as `json.load` produces them. -/
inductive Json where
  | null
  | bool (b : Bool)
  | num (n : Int)
  | str (s : String)
  | arr (xs : List Json)
  | obj (fields : List (String × Json))

/-- The runtime error `load_cache` can raise past its handler. -/
inductive PyRuntimeError where
  | attributeError
deriving DecidableEq, Repr

/-- The validation test of `load_cache`: the entry survives iff it is a
dict containing both the `hash` and `analysis` keys.  (Only key presence
is checked — the values under the two keys are not inspected.) -/
def isValidCacheEntry (v : Json) : Bool :=
  match v with
  | .obj fields =>
    fields.any (fun f => f.1 = "hash") && fields.any (fun f => f.1 = "analysis")
  | _ => false

/-- `load_cache` from code_analyzer.py.  The input models the state of the
cache file: `none` = file absent; `some none` = present but `json.load`
raised `JSONDecodeError`; `some (some doc)` = parsed document.  A missing
or unparseable file yields the empty cache (with a warning).  When the
document is an object, each entry failing `isValidCacheEntry` is deleted
(with a warning).  When the document parses to anything other than an
object, `cache.items()` raises `AttributeError`, which nothing catches. -/
def load_cache (file : Option (Option Json)) :
    Except PyRuntimeError (List (String × Json)) :=
  match file with
  | none => .ok []
  | some none => .ok []
  | some (some (.obj entries)) =>
    .ok (entries.filter (fun kv => isValidCacheEntry kv.2))
  | some (some _) => .error .attributeError

/-! ## code_analyzer.py : the rate-limited inference client -/

/-- Outcome of one POST to the inference endpoint, as the source
distinguishes them: HTTP 200 whose body has a nonempty `choices`
(success), HTTP 200 without it, a non-200 status with its error text, or a
raised transport exception with its message. -/
inductive ApiOutcome where
  | success (content : String)
  | badShape
  | httpError (status : Nat) (errorText : String)
  | exception (msg : String)
deriving DecidableEq, Repr

/-- True for the three failure outcomes. -/
def ApiOutcome.isFailure : ApiOutcome → Bool
  | .success _ => false
  | _ => true

/-- The text appended to `chunk_analyses` for chunk index `i` (0-based;
the messages use `i+1` as in the source): the model's reply on success,
otherwise the inline failure note built in the corresponding `except` /
`else` branch. -/
def chunk_note (i : Nat) (o : ApiOutcome) : String :=
  match o with
  | .success content => content
  | .badShape =>
    s!"Analysis failed for chunk {i+1} due to unexpected API response structure."
  | .httpError status errorText =>
    s!"Analysis failed for chunk {i+1} due to API error: {status} - {errorText}"
  | .exception msg =>
    s!"Analysis failed for chunk {i+1} due to exception: {msg}"

/-- The per-chunk texts collected by the loop of
`analyze_code_file_chunked`, one per chunk, in chunk order. -/
def chunk_analyses (oracle : Nat → ApiOutcome) (n : Nat) : List String :=
  (List.range n).map (fun i => chunk_note i (oracle i))

/-- The error-cause part of an inline failure note, per failure kind. -/
def failure_cause : ApiOutcome → String
  | .success _ => ""
  | .badShape => "unexpected API response structure."
  | .httpError status errorText => s!"API error: {status} - {errorText}"
  | .exception msg => s!"exception: {msg}"

/-- One `## Chunk {i+1} Analysis` section of the combined text. -/
def chunk_section (i : Nat) (analysis : String) : String :=
  s!"## Chunk {i+1} Analysis\n\n{analysis}\n\n"

/-- `os.path.splitext`-style extension: characters after the last dot, or
`none` when there is no dot. -/
def extAfterLastDot (cs : List Char) : Option (List Char) :=
  match cs with
  | [] => none
  | c :: rest =>
    match extAfterLastDot rest with
    | some e => some e
    | none => if c = '.' then some rest else none

/-- Generic single-character split (used for the path separator). -/
def splitOnChar (sep : Char) (cs : List Char) : List (List Char) :=
  match cs with
  | [] => [[]]
  | c :: rest =>
    if c = sep then [] :: splitOnChar sep rest
    else
      match splitOnChar sep rest with
      | [] => [[c]]
      | l :: ls => (c :: l) :: ls

/-- The extension-to-language table of `get_file_type`. -/
def file_types_table : List (String × String) :=
  [(".py", "Python"), (".js", "JavaScript"), (".cpp", "C++"), (".c", "C"),
   (".h", "C/C++ Header"), (".hpp", "C++ Header"), (".java", "Java"),
   (".cs", "C#"), (".html", "HTML"), (".css", "CSS"), (".php", "PHP"),
   (".rb", "Ruby"), (".go", "Go"), (".rs", "Rust"), (".ts", "TypeScript"),
   (".swift", "Swift"), (".kt", "Kotlin"), (".scala", "Scala"),
   (".m", "Objective-C"), (".mm", "Objective-C++"), (".pl", "Perl"),
   (".sh", "Shell Script"), (".sql", "SQL"), (".xml", "XML"),
   (".json", "JSON"), (".yaml", "YAML"), (".yml", "YAML"),
   (".md", "Markdown"), (".txt", "Plain Text")]

/-- `get_file_type` from code_analyzer.py:
`os.path.splitext(file_path)[1].lower()` looked up in the table, default
`Unknown`.  `splitext` takes the last dot of the final path component,
ignoring the component's leading dots. -/
def get_file_type (file_path : String) : String :=
  let base := (splitOnChar '/' file_path.toList).getLastD []
  let stem := base.dropWhile (fun c => c = '.')
  let ext :=
    match extAfterLastDot stem with
    | some e => String.mk ('.' :: e.map Char.toLower)
    | none => ""
  (file_types_table.lookup ext).getD "Unknown"

/-- Result of `analyze_code_file_chunked`.  `trace` lists the chunk index
of every POST request in submission order: the loop body sends exactly one
request per chunk and awaits its outcome before the next iteration, so the
trace doubles as the request count and the submission order. -/
structure ChunkedOut where
  file_path : String
  file_type : String
  combined : String
  trace : List Nat
deriving DecidableEq, Repr

/-- `analyze_code_file_chunked` from code_analyzer.py: split the content,
send one request per chunk strictly in order (each iteration awaits its
response — success or converted failure — before the next), then build
`combined_analysis` as the header followed by one `## Chunk {i+1}
Analysis` section per chunk in index order. -/
def analyze_code_file_chunked (oracle : Nat → ApiOutcome)
    (file_path : String) (content : List Char) : ChunkedOut :=
  let file_type := get_file_type file_path
  let chunks := split_content content 70000
  let analyses := chunk_analyses oracle chunks.length
  let combined :=
    "# Combined File Analysis for " ++ file_type ++ " File\n\n" ++
      String.join (analyses.enum.map (fun p => chunk_section p.1 p.2))
  { file_path := file_path
    file_type := file_type
    combined := combined
    trace := List.range chunks.length }

/-! ## code_analyzer.py : per-file processing and the cache -/

/-- The per-file result dict `{"file_path", "file_type", "analysis"}`. -/
structure FileResult where
  file_path : String
  file_type : String
  analysis : String
deriving DecidableEq, Repr

/-- A validated cache entry: the content hash and the whole stored result
dict (the source stores the full result under the `analysis` key). -/
structure CacheEntry where
  hash : String
  analysis : FileResult
deriving DecidableEq, Repr

/-- The in-memory cache dict, path-keyed. -/
abbrev Cache := List (String × CacheEntry)

def cacheLookup (cache : Cache) (p : String) : Option CacheEntry :=
  cache.lookup p

/-- `update_cache` from code_analyzer.py: `cache[file_path] = {...}`
followed by `save_cache` (the disk write carries no logic). -/
def update_cache (cache : Cache) (file_path : String)
    (file_hash_value : String) (analysis_result : FileResult) : Cache :=
  (file_path, ⟨file_hash_value, analysis_result⟩) ::
    cache.filter (fun kv => kv.1 ≠ file_path)

/-- Result of one `process_file` task: the produced result (or `None`),
the cache after the task, and the number of inference requests issued. -/
structure ProcOut where
  result : Option FileResult
  cache : Cache
  calls : Nat
deriving Repr

/-- The cache-miss continuation of `process_file`: run the chunked
analysis, then — since the source guards `if analysis:` — cache and return
the result when the combined text is nonempty, else return `None` without
caching.  (`extract_imports_and_functions` / `update_graph` also run here;
they issue no requests and do not affect the result, the cache or the
call count, so they are omitted.) -/
def process_file_miss (oracle : Nat → ApiOutcome)
    (file_path : String) (content : List Char) (cache : Cache)
    (file_hash_value : String) : ProcOut :=
  let out := analyze_code_file_chunked oracle file_path content
  if out.combined = "" then
    { result := none, cache := cache, calls := out.trace.length }
  else
    let result : FileResult := ⟨file_path, out.file_type, out.combined⟩
    { result := some result
      cache := update_cache cache file_path file_hash_value result
      calls := out.trace.length }

/-- `process_file` from code_analyzer.py.  `fhash` abstracts
`hashlib.md5(content.encode()).hexdigest()`; the file's content stands for
`read_file_safely`'s return.  Cache hit — the entry exists and its stored
hash equals the recomputed one — serves the stored result dict's
`file_type` and `analysis` fields with no request; otherwise the miss path
runs. -/
def process_file (oracle : Nat → ApiOutcome) (fhash : List Char → String)
    (file_path : String) (content : List Char) (cache : Cache) : ProcOut :=
  let file_hash_value := fhash content
  match cacheLookup cache file_path with
  | some entry =>
    if entry.hash = file_hash_value then
      { result := some ⟨file_path, entry.analysis.file_type,
          entry.analysis.analysis⟩
        cache := cache
        calls := 0 }
    else process_file_miss oracle file_path content cache file_hash_value
  | none => process_file_miss oracle file_path content cache file_hash_value

/-- Result of `process_files`. -/
structure FilesOut where
  results : List FileResult
  cache : Cache
  calls : Nat
deriving Repr

/-- `process_files` from code_analyzer.py: every file is processed and
`None` results are filtered out.  The single-threaded event loop
interleaves the tasks only at await points; cache updates are whole-step,
so the sequential fold (threading the shared cache, in file order) is an
admissible schedule.  `oracle p` is file `p`'s own request oracle. -/
def process_files (oracle : String → Nat → ApiOutcome)
    (fhash : List Char → String) (files : List (String × List Char))
    (cache : Cache) : FilesOut :=
  match files with
  | [] => { results := [], cache := cache, calls := 0 }
  | (p, c) :: rest =>
    let out := process_file (oracle p) fhash p c cache
    let tailOut := process_files oracle fhash rest out.cache
    { results :=
        match out.result with
        | some r => r :: tailOut.results
        | none => tailOut.results
      cache := tailOut.cache
      calls := out.calls + tailOut.calls }

/-- Recursion worker for `global_chunks`; `fuel` only bounds the recursion
(it starts at the list length and each round drops 50 ≥ 1 elements of a
nonempty list, so it never runs out). -/
def global_chunks_aux (fuel : Nat) (results : List FileResult) :
    List (List FileResult) :=
  match fuel, results with
  | _, [] => []
  | 0, _ :: _ => []
  | fuel + 1, r :: rest =>
    (r :: rest).take 50 :: global_chunks_aux fuel ((r :: rest).drop 50)

/-- The batches of `global_analysis`:
`[results[i:i+50] for i in range(0, len(results), 50)]`. -/
def global_chunks (results : List FileResult) : List (List FileResult) :=
  global_chunks_aux results.length results

/-- `global_analysis` issues exactly one request per batch (failures are
appended as text, never retried). -/
def global_analysis_calls (results : List FileResult) : Nat :=
  (global_chunks results).length

/-- `analyze_call_graph_with_llm` always issues exactly one request. -/
def analyze_call_graph_with_llm_calls : Nat := 1

/-- Total inference requests issued by one `main` run on the happy path:
the per-file requests, plus the call-graph analysis request, plus one
request per global-analysis batch of the collected results. -/
def run_calls (oracle : String → Nat → ApiOutcome)
    (fhash : List Char → String) (files : List (String × List Char))
    (cache : Cache) : Nat :=
  let fo := process_files oracle fhash files cache
  fo.calls + analyze_call_graph_with_llm_calls +
    global_analysis_calls fo.results

/-! ## The semaphore admission gate -/

/-- `MAX_CONCURRENT_CALLS` from code_analyzer.py. -/
def MAX_CONCURRENT_CALLS : Nat := 5

/-- The states a file-processing task can occupy with respect to the
process-wide semaphore: not yet at `async with semaphore` (with its number
of pending requests), holding a slot with `k` requests still to send and a
flag for a request currently in flight, or finished (slot released).
Every `session.post` in the source is lexically inside an
`async with semaphore` block, which this state space reflects: an in-flight
request exists only in the `holding` state. -/
inductive Phase where
  | waiting (k : Nat)
  | holding (k : Nat) (inflight : Bool)
  | finished
deriving DecidableEq, Repr

/-- Global scheduler state: free semaphore slots plus the task pool. -/
structure Sys where
  avail : Nat
  tasks : Multiset Phase

def Phase.isHolding : Phase → Bool
  | .holding _ _ => true
  | _ => false

def Phase.isInflight : Phase → Bool
  | .holding _ true => true
  | _ => false

/-- Number of requests simultaneously in flight. -/
def inflightCount (s : Sys) : Nat :=
  Multiset.countP (fun ph => ph.isInflight = true) s.tasks

/-- Number of tasks currently holding a semaphore slot. -/
def holdingCount (s : Sys) : Nat :=
  Multiset.countP (fun ph => ph.isHolding = true) s.tasks

/-- Interleaving semantics of the run: a waiting task may acquire a slot
only when one is free; a holding task may start a request (one at a time —
the loop awaits each response), finish it, and release the slot when its
requests are done.  Any interleaving across tasks is allowed. -/
inductive Step : Sys → Sys → Prop where
  | acquire (a k : Nat) (rest : Multiset Phase) :
      Step ⟨a + 1, .waiting k ::ₘ rest⟩ ⟨a, .holding k false ::ₘ rest⟩
  | startCall (a k : Nat) (rest : Multiset Phase) :
      Step ⟨a, .holding (k + 1) false ::ₘ rest⟩
        ⟨a, .holding (k + 1) true ::ₘ rest⟩
  | endCall (a k : Nat) (rest : Multiset Phase) :
      Step ⟨a, .holding (k + 1) true ::ₘ rest⟩ ⟨a, .holding k false ::ₘ rest⟩
  | release (a : Nat) (rest : Multiset Phase) :
      Step ⟨a, .holding 0 false ::ₘ rest⟩ ⟨a + 1, .finished ::ₘ rest⟩

/-- The initial state of a run: all `MAX_CONCURRENT_CALLS` slots free and
every task before its `async with semaphore`. -/
def initSys (chunkCounts : Multiset Nat) : Sys :=
  ⟨MAX_CONCURRENT_CALLS, chunkCounts.map Phase.waiting⟩

/-- States reachable by interleaving. -/
def Reachable (s₀ s : Sys) : Prop := Relation.ReflTransGen Step s₀ s

/-! ## Helper lemmas -/

theorem splitLines_ne_nil (cs : List Char) : splitLines cs ≠ [] := by
  cases cs with
  | nil => simp [splitLines]
  | cons c rest =>
    unfold splitLines
    by_cases h : c = '\n'
    · simp [h]
    · simp only [h, if_false]
      cases splitLines rest <;> simp

theorem splitLines_no_newline (cs : List Char) (h : '\n' ∉ cs) :
    splitLines cs = [cs] := by
  induction cs with
  | nil => rfl
  | cons c rest ih =>
    unfold splitLines
    have hc : ¬ c = '\n' := by
      intro hc
      exact h (hc ▸ List.mem_cons_self c rest)
    rw [if_neg hc, ih (fun hm => h (List.mem_cons_of_mem c hm))]

theorem splitLoop_ne_nil (m : Nat) (lines : List (List Char))
    (current : List Char) (h : lines ≠ [] ∨ current ≠ []) :
    splitLoop m lines current ≠ [] := by
  induction lines generalizing current with
  | nil =>
    rcases h with h | h
    · exact absurd rfl h
    · simp [splitLoop, List.isEmpty_iff, h]
  | cons line rest ih =>
    unfold splitLoop
    by_cases hc : m < current.length + line.length
    · simp [hc]
    · rw [if_neg hc]
      exact ih (current ++ line ++ ['\n']) (Or.inr (by simp))

theorem split_content_length_pos (content : List Char) (m : Nat) :
    0 < (split_content content m).length :=
  List.length_pos.mpr
    (splitLoop_ne_nil m (splitLines content) [] (Or.inl (splitLines_ne_nil content)))

theorem splitLoop_join (m : Nat) (lines : List (List Char))
    (current : List Char) :
    (splitLoop m lines current).flatten =
      current ++ (lines.map (fun l => l ++ ['\n'])).flatten := by
  induction lines generalizing current with
  | nil =>
    by_cases h : current.isEmpty
    · simp [splitLoop, h, List.isEmpty_iff.mp h]
    · simp [splitLoop, h]
  | cons line rest ih =>
    unfold splitLoop
    by_cases hc : m < current.length + line.length
    · simp [hc, ih, List.append_assoc]
    · simp [hc, ih, List.append_assoc]

theorem splitLines_join (cs : List Char) :
    ((splitLines cs).map (fun l => l ++ ['\n'])).flatten = cs ++ ['\n'] := by
  induction cs with
  | nil => rfl
  | cons c rest ih =>
    unfold splitLines
    by_cases h : c = '\n'
    · simp [h, ih]
    · rw [if_neg h]
      cases hsp : splitLines rest with
      | nil => exact absurd hsp (splitLines_ne_nil rest)
      | cons l ls =>
        rw [hsp] at ih
        simp only [List.map_cons, List.flatten_cons] at ih ⊢
        simp [← List.append_assoc, ih]

theorem splitLoop_last (m : Nat) (lines : List (List Char))
    (current : List Char)
    (h : current = [] ∨ current.getLast? = some '\n') :
    ∀ ch ∈ splitLoop m lines current, ch = [] ∨ ch.getLast? = some '\n' := by
  induction lines generalizing current with
  | nil =>
    intro ch hch
    unfold splitLoop at hch
    by_cases he : current.isEmpty
    · simp [he] at hch
    · rw [if_neg he] at hch
      rw [List.mem_singleton.mp hch]
      exact h
  | cons line rest ih =>
    intro ch hch
    unfold splitLoop at hch
    by_cases hc : m < current.length + line.length
    · rw [if_pos hc] at hch
      rcases List.mem_cons.mp hch with h1 | h1
      · exact h1 ▸ h
      · refine ih (line ++ ['\n']) (Or.inr ?_) ch h1
        exact List.getLast?_concat _
    · rw [if_neg hc] at hch
      exact ih (current ++ line ++ ['\n']) (Or.inr (List.getLast?_concat _)) ch hch

theorem splitLoop_size (m : Nat) (lines : List (List Char))
    (current : List Char)
    (hl : ∀ line ∈ lines, line.length ≤ m)
    (hc : current.length ≤ m + 1) :
    ∀ ch ∈ splitLoop m lines current, ch.length ≤ m + 1 := by
  induction lines generalizing current with
  | nil =>
    intro ch hch
    unfold splitLoop at hch
    by_cases he : current.isEmpty
    · simp [he] at hch
    · rw [if_neg he] at hch
      exact List.mem_singleton.mp hch ▸ hc
  | cons line rest ih =>
    intro ch hch
    have hline : line.length ≤ m := hl line (List.mem_cons_self line rest)
    have hrest : ∀ l ∈ rest, l.length ≤ m :=
      fun l hm => hl l (List.mem_cons_of_mem line hm)
    unfold splitLoop at hch
    by_cases hcond : m < current.length + line.length
    · rw [if_pos hcond] at hch
      rcases List.mem_cons.mp hch with h1 | h1
      · exact h1 ▸ hc
      · exact ih (line ++ ['\n']) hrest (by simp; omega) ch h1
    · rw [if_neg hcond] at hch
      push_neg at hcond
      exact ih (current ++ line ++ ['\n']) hrest (by simp; omega) ch hch

theorem combined_header_ne_empty (ft rest : String) :
    "# Combined File Analysis for " ++ ft ++ " File\n\n" ++ rest ≠ "" := by
  intro h
  have h1 := congrArg String.length h
  simp only [String.length_append] at h1
  have h2 : ("# Combined File Analysis for " : String).length = 29 := rfl
  have h3 : (" File\n\n" : String).length = 7 := rfl
  have h4 : ("" : String).length = 0 := rfl
  omega

theorem analyze_combined_ne_empty (oracle : Nat → ApiOutcome)
    (file_path : String) (content : List Char) :
    (analyze_code_file_chunked oracle file_path content).combined ≠ "" := by
  unfold analyze_code_file_chunked
  exact combined_header_ne_empty _ _

theorem process_file_result_isSome (oracle : Nat → ApiOutcome)
    (fhash : List Char → String) (p : String) (c : List Char)
    (cache : Cache) :
    (process_file oracle fhash p c cache).result.isSome = true := by
  unfold process_file process_file_miss
  cases hc : cacheLookup cache p with
  | none => simp [analyze_combined_ne_empty]
  | some entry =>
    by_cases he : entry.hash = fhash c
    · simp [he]
    · simp [he, analyze_combined_ne_empty]

theorem process_files_length (oracle : String → Nat → ApiOutcome)
    (fhash : List Char → String) (files : List (String × List Char))
    (cache : Cache) :
    (process_files oracle fhash files cache).results.length = files.length := by
  induction files generalizing cache with
  | nil => rfl
  | cons f rest ih =>
    obtain ⟨p, c⟩ := f
    have h := process_file_result_isSome (oracle p) fhash p c cache
    unfold process_files
    cases hr : (process_file (oracle p) fhash p c cache).result with
    | none => rw [hr] at h; simp at h
    | some r => simp [hr, ih]

theorem enum_map_range {α : Type} (f : Nat → α) (n : Nat) :
    ((List.range n).map f).enum = (List.range n).map (fun i => (i, f i)) := by
  apply List.ext_getElem
  · simp
  · intro i h1 h2
    simp [List.getElem_enum]

theorem toString_id (s : String) : toString s = s := rfl

theorem chunk_note_failure (i : Nat) (o : ApiOutcome)
    (h : o.isFailure = true) :
    chunk_note i o =
      "Analysis failed for chunk " ++ toString (i + 1) ++ " due to " ++
        failure_cause o := by
  cases o with
  | success c => simp [ApiOutcome.isFailure] at h
  | badShape =>
    simp [chunk_note, failure_cause, toString_id, String.append_assoc,
      String.append_empty]
  | httpError status errorText =>
    simp only [chunk_note, failure_cause, toString_id, String.append_assoc,
      String.append_empty]
    rw [show (" due to API error: " : String) =
      " due to " ++ "API error: " from rfl, String.append_assoc]
  | exception msg =>
    simp only [chunk_note, failure_cause, toString_id, String.append_assoc,
      String.append_empty]
    rw [show (" due to exception: " : String) =
      " due to " ++ "exception: " from rfl, String.append_assoc]

theorem splitLoop_single_line (m : Nat) (line : List Char)
    (h : line.length ≤ m) :
    splitLoop m [line] [] = [line ++ ['\n']] := by
  unfold splitLoop
  rw [if_neg (by simp; omega)]
  unfold splitLoop
  rw [if_neg (by simp)]
  rw [List.nil_append]

/-! ## Claim theorems -/

/-- Claim C1: the spec says every bare-identifier call expression lexically
inside a function or class body yields an edge from the innermost enclosing
definition, so for file A `def f(): g()` and file B `def g(): pass` the
composed graph should contain the edge f→g.  The code fails this:
`extract_calls` looks only at direct AST children, and the call `g()` in
f's body is wrapped in an `Expr` statement node that the dispatch neither
matches nor recurses through, so extraction of file A yields no edges at
all and the composed call list of the two files is empty — the edge f→g is
absent. -/
theorem extract_calls_misses_function_body_calls :
    extract_calls (Node.module [Node.functionDef "f"
      [Node.exprStmt (Node.call (Node.nameExpr "g") [])] []]) none = [] ∧
    process_directory
      [Except.ok (Node.module [Node.functionDef "f"
        [Node.exprStmt (Node.call (Node.nameExpr "g") [])] []]),
       Except.ok (Node.module [Node.functionDef "g" [Node.passStmt] []])] =
      Except.ok [] :=
  ⟨rfl, rfl⟩

/-- Claim C3, counterexample: the claim says a directory scan is never
aborted by a single file's parse failure.  In call_graph.py there is no
fallback: `process_directory` on a directory whose first file fails to
parse propagates the exception and aborts, so the second (well-formed)
file is never processed, although alone it scans fine. -/
theorem process_directory_abort_on_parse_failure :
    process_directory [Except.error (),
      Except.ok (Node.module [Node.functionDef "f" [] []])] =
      Except.error () ∧
    process_directory
      [Except.ok (Node.module [Node.functionDef "f" [] []])] =
      Except.ok [] :=
  ⟨rfl, rfl⟩

/-- Claim C3, amended: in the analyzer pipeline
(`extract_imports_and_functions`) a structured parse failure does degrade
to the regex-based heuristic recovery of imports, functions and classes,
and `process_files` yields a result for every file (none omitted, the
scan continues); but the standalone call-graph scan
(`process_directory` in call_graph.py) has no such fallback and is aborted
by a single parse failure. -/
theorem analyzer_parse_failure_fallback (s : SourceText) (e : Unit)
    (h : s.parsed = Except.error e) :
    extract_imports_and_functions s =
      ⟨findImports s.chars, findFunctions s.chars, findClasses s.chars⟩ ∧
    ∀ (oracle : String → Nat → ApiOutcome) (fhash : List Char → String)
      (files : List (String × List Char)) (cache : Cache),
      (process_files oracle fhash files cache).results.length =
        files.length := by
  refine ⟨?_, fun oracle fhash files cache =>
    process_files_length oracle fhash files cache⟩
  unfold extract_imports_and_functions
  rw [h]

/-- Witness for C3: a concrete non-Python text is recovered by the regex
fallback, and a one-file scan yields one result. -/
theorem analyzer_parse_failure_fallback_witness :
    extract_imports_and_functions
      ⟨"def foo\nclass Bar\nimport os".toList, Except.error ()⟩ =
      ⟨["os"], ["foo"], ["Bar"]⟩ ∧
    (process_files (fun _ _ => ApiOutcome.success "ok") (fun _ => "h")
      [("bad.xyz", "x".toList)] []).results.length = 1 := by
  have h := analyzer_parse_failure_fallback
    ⟨"def foo\nclass Bar\nimport os".toList, Except.error ()⟩ () rfl
  constructor
  · rw [h.1]; decide
  · exact h.2 (fun _ _ => ApiOutcome.success "ok") (fun _ => "h")
      [("bad.xyz", "x".toList)] []

/-- Claim C7, counterexample: the claim says every chunk returned by
`split_content` stays under the 70000-character budget.  A single line of
exactly 70000 characters (no newline) becomes one chunk of 70001
characters — the loop admits a line whenever `len(current) + len(line)`
does not exceed the budget and then appends the line plus a newline. -/
theorem split_content_budget_exceeded :
    (split_content (List.replicate 70000 'a') 70000).map List.length =
      [70001] ∧ 70000 < 70001 := by
  constructor
  · have hnn : '\n' ∉ List.replicate 70000 'a' := by
      intro hm
      have := List.eq_of_mem_replicate hm
      simp at this
    unfold split_content
    rw [splitLines_no_newline _ hnn]
    rw [splitLoop_single_line 70000 _ (le_of_eq (by rw [List.length_replicate]))]
    rw [List.map_singleton, List.length_append, List.length_replicate,
      List.length_singleton]
  · decide

/-- Claim C7, amended: `split_content` cuts only at line boundaries —
every chunk is a run of whole lines each terminated by a newline, and the
chunks concatenate to the content plus one trailing newline — and, when no
single line exceeds `max_chars`, every chunk's size is at most
`max_chars + 1` (not strictly under `max_chars`: a chunk may reach 70001
characters at the default budget, and a longer line yields an oversized
chunk). -/
theorem split_content_line_boundary_bound (content : List Char)
    (max_chars : Nat)
    (hl : ∀ line ∈ splitLines content, line.length ≤ max_chars) :
    (split_content content max_chars).flatten = content ++ ['\n'] ∧
    (∀ ch ∈ split_content content max_chars,
      ch = [] ∨ ch.getLast? = some '\n') ∧
    (∀ ch ∈ split_content content max_chars,
      ch.length ≤ max_chars + 1) := by
  unfold split_content
  refine ⟨?_, ?_, ?_⟩
  · rw [splitLoop_join]
    simp [splitLines_join]
  · exact splitLoop_last _ _ _ (Or.inl rfl)
  · exact splitLoop_size _ _ _ hl (by simp)

/-- Witness for C7 at a concrete content. -/
theorem split_content_line_boundary_bound_witness :
    (split_content "ab\ncd".toList 5).flatten = "ab\ncd".toList ++ ['\n'] :=
  (split_content_line_boundary_bound "ab\ncd".toList 5 (by decide)).1

/-- Claim C8, counterexample: the claim says cache loading never fails
fatally.  A cache file that parses as valid JSON but yields a non-object
document (here an array) makes `load_cache` reach `cache.items()` on a
non-dict, raising an uncaught `AttributeError`. -/
theorem load_cache_fatal_on_non_object :
    load_cache (some (some (Json.arr []))) =
      Except.error PyRuntimeError.attributeError :=
  rfl

/-- Claim C8, amended: cache loading yields an empty cache when the file
is missing or fails to parse as JSON, and, when the document is a JSON
object, an entry is kept exactly when it is a mapping containing both the
`hash` and `analysis` keys — all other entries are dropped with a warning
and treated as absent; but a document that is valid JSON and not an
object raises an uncaught error. -/
theorem load_cache_validation_behavior :
    load_cache none = Except.ok [] ∧
    load_cache (some none) = Except.ok [] ∧
    (∀ entries : List (String × Json),
      load_cache (some (some (Json.obj entries))) =
        Except.ok (entries.filter (fun kv => isValidCacheEntry kv.2))) ∧
    (∀ (entries : List (String × Json)) (kv : String × Json),
      kv ∈ entries.filter (fun kv => isValidCacheEntry kv.2) ↔
        kv ∈ entries ∧ isValidCacheEntry kv.2 = true) :=
  ⟨rfl, rfl, fun _ => rfl, fun _ _ => List.mem_filter⟩

/-! ## Further helper lemmas for the cache and client claims -/

theorem process_file_miss_spec (oracle : Nat → ApiOutcome) (p : String)
    (content : List Char) (cache : Cache) (h : String) :
    (process_file_miss oracle p content cache h).result =
      some ⟨p, (analyze_code_file_chunked oracle p content).file_type,
        (analyze_code_file_chunked oracle p content).combined⟩ ∧
    (process_file_miss oracle p content cache h).cache =
      update_cache cache p h
        ⟨p, (analyze_code_file_chunked oracle p content).file_type,
          (analyze_code_file_chunked oracle p content).combined⟩ ∧
    (process_file_miss oracle p content cache h).calls =
      (split_content content 70000).length := by
  unfold process_file_miss
  rw [if_neg (analyze_combined_ne_empty oracle p content)]
  refine ⟨rfl, rfl, ?_⟩
  simp [analyze_code_file_chunked]

theorem cacheLookup_update_self (cache : Cache) (p h : String)
    (r : FileResult) :
    cacheLookup (update_cache cache p h r) p = some ⟨h, r⟩ := by
  unfold cacheLookup update_cache
  simp [List.lookup]

theorem process_file_hit (oracle : Nat → ApiOutcome)
    (fhash : List Char → String) (p : String) (c : List Char)
    (cache : Cache) (e : CacheEntry)
    (hent : cacheLookup cache p = some e) (hh : e.hash = fhash c) :
    process_file oracle fhash p c cache =
      { result := some ⟨p, e.analysis.file_type, e.analysis.analysis⟩
        cache := cache
        calls := 0 } := by
  unfold process_file
  rw [hent]
  exact if_pos hh

theorem process_file_of_lookup_none (oracle : Nat → ApiOutcome)
    (fhash : List Char → String) (p : String) (c : List Char)
    (cache : Cache) (hc : cacheLookup cache p = none) :
    process_file oracle fhash p c cache =
      process_file_miss oracle p c cache (fhash c) := by
  unfold process_file
  rw [hc]

theorem process_file_of_hash_ne (oracle : Nat → ApiOutcome)
    (fhash : List Char → String) (p : String) (c : List Char)
    (cache : Cache) (e : CacheEntry)
    (hc : cacheLookup cache p = some e) (he : ¬ e.hash = fhash c) :
    process_file oracle fhash p c cache =
      process_file_miss oracle p c cache (fhash c) := by
  unfold process_file
  rw [hc]
  exact if_neg he

theorem process_file_calls_zero_iff (oracle : Nat → ApiOutcome)
    (fhash : List Char → String) (p : String) (c : List Char)
    (cache : Cache) :
    (process_file oracle fhash p c cache).calls = 0 ↔
      ∃ e, cacheLookup cache p = some e ∧ e.hash = fhash c := by
  have hpos := split_content_length_pos c 70000
  cases hc : cacheLookup cache p with
  | none =>
    rw [process_file_of_lookup_none oracle fhash p c cache hc,
      (process_file_miss_spec oracle p c cache (fhash c)).2.2]
    constructor
    · intro h0; omega
    · rintro ⟨e, he, -⟩
      exact Option.noConfusion he
  | some e =>
    by_cases he : e.hash = fhash c
    · rw [process_file_hit oracle fhash p c cache e hc he]
      exact ⟨fun _ => ⟨e, rfl, he⟩, fun _ => rfl⟩
    · rw [process_file_of_hash_ne oracle fhash p c cache e hc he,
        (process_file_miss_spec oracle p c cache (fhash c)).2.2]
      constructor
      · intro h0; omega
      · rintro ⟨e', he', hh'⟩
        exact absurd hh' ((Option.some_inj.mp he') ▸ he)

/-- Claim C6: within one file the combined analysis text contains the
per-chunk analyses in chunk-index order, and request i+1 is submitted only
after request i's outcome is recorded — the loop of
`analyze_code_file_chunked` awaits each response (or converts its failure)
before the next iteration, so the submission trace is exactly the strictly
increasing sequence of chunk indices and the reconstructed text is the
header followed by the chunk sections in index order, independent of any
arrival-order consideration. -/
theorem chunk_order_deterministic (oracle : Nat → ApiOutcome)
    (file_path : String) (content : List Char) :
    (analyze_code_file_chunked oracle file_path content).trace =
      List.range (split_content content 70000).length ∧
    List.Pairwise (· < ·)
      (analyze_code_file_chunked oracle file_path content).trace ∧
    (analyze_code_file_chunked oracle file_path content).combined =
      "# Combined File Analysis for " ++
        (analyze_code_file_chunked oracle file_path content).file_type ++
        " File\n\n" ++
        String.join ((List.range (split_content content 70000).length).map
          (fun i => chunk_section i (chunk_note i (oracle i)))) := by
  refine ⟨rfl, ?_, ?_⟩
  · exact List.pairwise_lt_range _
  · have h1 : (analyze_code_file_chunked oracle file_path content).combined =
        "# Combined File Analysis for " ++ get_file_type file_path ++
          " File\n\n" ++
          String.join (((chunk_analyses oracle
            (split_content content 70000).length).enum).map
            (fun p => chunk_section p.1 p.2)) := rfl
    have h2 : (analyze_code_file_chunked oracle file_path content).file_type =
        get_file_type file_path := rfl
    rw [h1, h2]
    unfold chunk_analyses
    rw [enum_map_range, List.map_map]
    rfl

/-- Claim C5: a per-chunk inference failure (non-200 status, transport
exception, or missing result field) is converted into an inline failure
note that names the offending chunk number and the error cause and
occupies that chunk's slot; every chunk still gets exactly one request
(no retry) in index order (no abort of siblings), an oracle differing only
at the failed index leaves every other slot unchanged, and every other
file still produces a result. -/
theorem chunk_failure_isolated_inline_note
    (oracle oracle2 : Nat → ApiOutcome) (file_path : String)
    (content : List Char) (i n : Nat)
    (hn : n = (split_content content 70000).length)
    (hi : i < n)
    (hfail : (oracle i).isFailure = true)
    (hagree : ∀ j, j ≠ i → oracle2 j = oracle j) :
    (analyze_code_file_chunked oracle file_path content).trace =
      List.range n ∧
    (analyze_code_file_chunked oracle file_path content).trace.length = n ∧
    (analyze_code_file_chunked oracle file_path content).trace.Nodup ∧
    (chunk_analyses oracle n).length = n ∧
    (chunk_analyses oracle n)[i]? =
      some ("Analysis failed for chunk " ++ toString (i + 1) ++
        " due to " ++ failure_cause (oracle i)) ∧
    (∀ j, j ≠ i →
      (chunk_analyses oracle2 n)[j]? = (chunk_analyses oracle n)[j]?) ∧
    (∀ (orc : String → Nat → ApiOutcome) (fhash : List Char → String)
       (files : List (String × List Char)) (cache : Cache),
       (process_files orc fhash files cache).results.length =
         files.length) := by
  subst hn
  refine ⟨rfl, by simp [analyze_code_file_chunked], ?_, ?_, ?_, ?_, ?_⟩
  · show (List.range _).Nodup
    exact List.nodup_range _
  · simp [chunk_analyses]
  · simp [chunk_analyses, List.getElem?_map, List.getElem?_range, hi,
      chunk_note_failure i (oracle i) hfail]
  · intro j hj
    by_cases hjn : j < (split_content content 70000).length
    · simp [chunk_analyses, List.getElem?_map, List.getElem?_range, hjn,
        hagree j hj]
    · have hnone :
          (List.range (split_content content 70000).length)[j]? = none :=
        List.getElem?_eq_none (by simpa using Nat.le_of_not_lt hjn)
      simp [chunk_analyses, List.getElem?_map, hnone]
  · exact fun orc fhash files cache =>
      process_files_length orc fhash files cache

/-- Witness for C5: a failing chunk yields the inline note naming chunk 1
and the HTTP error cause. -/
theorem chunk_failure_isolated_inline_note_witness :
    (chunk_analyses (fun _ => ApiOutcome.httpError 500 "boom") 1)[0]? =
      some "Analysis failed for chunk 1 due to API error: 500 - boom" := by
  have h := chunk_failure_isolated_inline_note
    (fun _ => ApiOutcome.httpError 500 "boom")
    (fun _ => ApiOutcome.httpError 500 "boom") "a.py" "x".toList 0 1
    (by decide) (by decide) (by decide) (fun j hj => rfl)
  rw [h.2.2.2.2.1]
  rfl

/-- Claim C4: a cache lookup hits exactly when the stored hash equals the
recomputed content hash; for content whose hash no longer matches the
stored entry, a new inference call is issued, the entry is overwritten
with the new hash and the freshly computed analysis, and the returned
result is that fresh analysis — the stale one is never served for the
changed content. -/
theorem cache_hit_iff_hash_and_overwrite (oracle : Nat → ApiOutcome)
    (fhash : List Char → String) (p : String) (c2 : List Char)
    (cache : Cache) (e1 : CacheEntry) (ft combined : String)
    (hent : cacheLookup cache p = some e1)
    (hne : fhash c2 ≠ e1.hash)
    (hft : ft = (analyze_code_file_chunked oracle p c2).file_type)
    (hcomb : combined = (analyze_code_file_chunked oracle p c2).combined) :
    (∀ (cache' : Cache) (c' : List Char),
      (process_file oracle fhash p c' cache').calls = 0 ↔
        ∃ e, cacheLookup cache' p = some e ∧ e.hash = fhash c') ∧
    0 < (process_file oracle fhash p c2 cache).calls ∧
    cacheLookup (process_file oracle fhash p c2 cache).cache p =
      some ⟨fhash c2, ⟨p, ft, combined⟩⟩ ∧
    (process_file oracle fhash p c2 cache).result = some ⟨p, ft, combined⟩ := by
  have hred : process_file oracle fhash p c2 cache =
      process_file_miss oracle p c2 cache (fhash c2) :=
    process_file_of_hash_ne oracle fhash p c2 cache e1 hent
      (fun hEq => hne hEq.symm)
  obtain ⟨h1, h2, h3⟩ := process_file_miss_spec oracle p c2 cache (fhash c2)
  refine ⟨fun cache' c' =>
    process_file_calls_zero_iff oracle fhash p c' cache', ?_, ?_, ?_⟩
  · rw [hred, h3]
    exact split_content_length_pos c2 70000
  · rw [hred, h2, hft, hcomb]
    exact cacheLookup_update_self cache p (fhash c2) _
  · rw [hred, h1, hft, hcomb]

/-- Witness for C4: a changed file ("xy", hash "2") whose cached entry has
hash "h1" is re-analyzed and the entry is overwritten with the new hash
and fresh analysis. -/
theorem cache_hit_iff_hash_and_overwrite_witness :
    cacheLookup (process_file (fun _ => ApiOutcome.success "fresh")
        (fun c => toString c.length) "a.py" "xy".toList
        [("a.py", ⟨"h1", ⟨"a.py", "Python", "old"⟩⟩)]).cache "a.py" =
      some ⟨"2", ⟨"a.py", "Python",
        "# Combined File Analysis for Python File\n\n## Chunk 1 Analysis\n\nfresh\n\n"⟩⟩ := by
  have h := cache_hit_iff_hash_and_overwrite
    (fun _ => ApiOutcome.success "fresh") (fun c => toString c.length)
    "a.py" "xy".toList [("a.py", ⟨"h1", ⟨"a.py", "Python", "old"⟩⟩)]
    ⟨"h1", ⟨"a.py", "Python", "old"⟩⟩ "Python"
    "# Combined File Analysis for Python File\n\n## Chunk 1 Analysis\n\nfresh\n\n"
    rfl (by decide) rfl rfl
  exact h.2.2.1

/-- Claim C2, counterexample: the claim says an unchanged re-run issues
zero external inference calls.  With one file fully cached (stored hash
equals the recomputed hash, so per-file processing issues nothing) the run
still issues two requests: the call-graph analysis request and one
global-analysis batch request. -/
theorem rerun_issues_calls_when_all_cached :
    cacheLookup [("a.py",
        (⟨"1", ⟨"a.py", "Python", "cached"⟩⟩ : CacheEntry))] "a.py" =
      some ⟨"1", ⟨"a.py", "Python", "cached"⟩⟩ ∧
    (fun c : List Char => toString c.length) "x".toList = "1" ∧
    run_calls (fun _ _ => ApiOutcome.success "fresh")
      (fun c => toString c.length) [("a.py", "x".toList)]
      [("a.py", ⟨"1", ⟨"a.py", "Python", "cached"⟩⟩)] = 2 :=
  ⟨rfl, rfl, rfl⟩

/-- Claim C2, amended: when every discovered file's recomputed hash equals
its cached hash, per-file processing issues zero inference calls, leaves
the cache unchanged and serves exactly the cached analyses, so the
file-analyses part of the output bundle is identical; but the run as a
whole still issues the call-graph analysis request plus one
global-analysis request per batch of results on every run (it is not
zero-call, and those regenerated texts are fresh model output). -/
theorem all_cached_process_files_zero_calls
    (oracle : String → Nat → ApiOutcome) (fhash : List Char → String)
    (files : List (String × List Char)) (cache : Cache)
    (hall : ∀ pc ∈ files, ∃ e, cacheLookup cache pc.1 = some e ∧
      e.hash = fhash pc.2) :
    (process_files oracle fhash files cache).calls = 0 ∧
    (process_files oracle fhash files cache).cache = cache ∧
    (process_files oracle fhash files cache).results =
      files.filterMap (fun pc => (cacheLookup cache pc.1).map
        (fun e => ⟨pc.1, e.analysis.file_type, e.analysis.analysis⟩)) ∧
    run_calls oracle fhash files cache =
      analyze_call_graph_with_llm_calls +
        global_analysis_calls (process_files oracle fhash files cache).results := by
  have h3 : (process_files oracle fhash files cache).calls = 0 ∧
      (process_files oracle fhash files cache).cache = cache ∧
      (process_files oracle fhash files cache).results =
        files.filterMap (fun pc => (cacheLookup cache pc.1).map
          (fun e => ⟨pc.1, e.analysis.file_type, e.analysis.analysis⟩)) := by
    induction files with
    | nil => exact ⟨rfl, rfl, rfl⟩
    | cons f rest ih =>
      obtain ⟨p, c⟩ := f
      obtain ⟨e, he, hh⟩ := hall (p, c) (List.mem_cons_self _ _)
      have ihr := ih (fun pc hm => hall pc (List.mem_cons_of_mem _ hm))
      unfold process_files
      rw [process_file_hit (oracle p) fhash p c cache e he hh]
      refine ⟨by simp [ihr.1], by simp [ihr.2.1], ?_⟩
      simp [List.filterMap_cons, he, ihr.2.2]
  refine ⟨h3.1, h3.2.1, h3.2.2, ?_⟩
  show (process_files oracle fhash files cache).calls +
      analyze_call_graph_with_llm_calls +
      global_analysis_calls (process_files oracle fhash files cache).results =
    _
  rw [h3.1]
  omega

/-- Witness for C2 at a concrete fully-cached run. -/
theorem all_cached_process_files_zero_calls_witness :
    (process_files (fun _ _ => ApiOutcome.success "fresh")
      (fun c => toString c.length) [("a.py", "x".toList)]
      [("a.py", ⟨"1", ⟨"a.py", "Python", "cached"⟩⟩)]).calls = 0 :=
  (all_cached_process_files_zero_calls _ _ _ _ (by
    intro pc hm
    simp only [List.mem_singleton] at hm
    subst hm
    exact ⟨⟨"1", ⟨"a.py", "Python", "cached"⟩⟩, rfl, rfl⟩)).1

/-- Claim C10: on a cache miss, even when every chunk's inference call
fails, the combined analysis is a nonempty string (header plus failure
notes), the file counts as successfully analyzed and is cached under its
current content hash with that failure text; an unchanged second run then
serves the failure notes from the cache with zero inference calls,
whatever the second run's oracle would have answered. -/
theorem all_failed_chunks_cached_and_replayed
    (oracle oracle2 : Nat → ApiOutcome) (fhash : List Char → String)
    (p : String) (content : List Char) (cache : Cache)
    (ft combined : String)
    (hmiss : ∀ e, cacheLookup cache p = some e → e.hash ≠ fhash content)
    (hfail : ∀ i, (oracle i).isFailure = true)
    (hft : ft = (analyze_code_file_chunked oracle p content).file_type)
    (hcomb : combined = (analyze_code_file_chunked oracle p content).combined) :
    (process_file oracle fhash p content cache).result =
      some ⟨p, ft, combined⟩ ∧
    combined ≠ "" ∧
    (∀ i, i < (split_content content 70000).length →
      (chunk_analyses oracle (split_content content 70000).length)[i]? =
        some ("Analysis failed for chunk " ++ toString (i + 1) ++
          " due to " ++ failure_cause (oracle i))) ∧
    cacheLookup (process_file oracle fhash p content cache).cache p =
      some ⟨fhash content, ⟨p, ft, combined⟩⟩ ∧
    (process_file oracle2 fhash p content
      (process_file oracle fhash p content cache).cache).calls = 0 ∧
    (process_file oracle2 fhash p content
      (process_file oracle fhash p content cache).cache).result =
      some ⟨p, ft, combined⟩ := by
  have hred : process_file oracle fhash p content cache =
      process_file_miss oracle p content cache (fhash content) := by
    cases hc : cacheLookup cache p with
    | none => exact process_file_of_lookup_none oracle fhash p content cache hc
    | some e =>
      exact process_file_of_hash_ne oracle fhash p content cache e hc
        (fun hEq => hmiss e hc hEq)
  obtain ⟨h1, h2, h3⟩ := process_file_miss_spec oracle p content cache
    (fhash content)
  have hlook : cacheLookup (process_file oracle fhash p content cache).cache p =
      some ⟨fhash content, ⟨p, ft, combined⟩⟩ := by
    rw [hred, h2, hft, hcomb]
    exact cacheLookup_update_self cache p (fhash content) _
  have hhit := process_file_hit oracle2 fhash p content
    (process_file oracle fhash p content cache).cache
    ⟨fhash content, ⟨p, ft, combined⟩⟩ hlook rfl
  refine ⟨by rw [hred, h1, hft, hcomb], ?_, ?_, hlook, by rw [hhit],
    by rw [hhit]⟩
  · rw [hcomb]
    exact analyze_combined_ne_empty oracle p content
  · intro i hi
    simp [chunk_analyses, List.getElem?_map, List.getElem?_range, hi,
      chunk_note_failure i (oracle i) (hfail i)]

/-- Witness for C10: with every call failing, the second run over the
written cache issues zero calls and returns the cached failure text. -/
theorem all_failed_chunks_cached_and_replayed_witness :
    (process_file (fun _ => ApiOutcome.exception "down")
      (fun c => toString c.length) "a.py" "x".toList
      (process_file (fun _ => ApiOutcome.exception "down")
        (fun c => toString c.length) "a.py" "x".toList []).cache).calls = 0 ∧
    (process_file (fun _ => ApiOutcome.exception "down")
      (fun c => toString c.length) "a.py" "x".toList
      (process_file (fun _ => ApiOutcome.exception "down")
        (fun c => toString c.length) "a.py" "x".toList []).cache).result =
      some ⟨"a.py", "Python",
        "# Combined File Analysis for Python File\n\n## Chunk 1 Analysis\n\nAnalysis failed for chunk 1 due to exception: down\n\n"⟩ := by
  have h := all_failed_chunks_cached_and_replayed
    (fun _ => ApiOutcome.exception "down") (fun _ => ApiOutcome.exception "down")
    (fun c => toString c.length) "a.py" "x".toList [] "Python"
    "# Combined File Analysis for Python File\n\n## Chunk 1 Analysis\n\nAnalysis failed for chunk 1 due to exception: down\n\n"
    (fun e he => nomatch he) (fun i => rfl) rfl rfl
  exact ⟨h.2.2.2.2.1, h.2.2.2.2.2⟩

/-! ## Semaphore helper lemmas -/

theorem inflight_le_holding (ts : Multiset Phase) :
    Multiset.countP (fun ph => ph.isInflight = true) ts ≤
      Multiset.countP (fun ph => ph.isHolding = true) ts := by
  induction ts using Multiset.induction_on with
  | empty => simp
  | cons a s ih =>
    rw [Multiset.countP_cons, Multiset.countP_cons]
    have h : (if a.isInflight = true then 1 else 0) ≤
        (if a.isHolding = true then 1 else 0) := by
      cases a with
      | waiting k => simp [Phase.isInflight, Phase.isHolding]
      | holding k b => cases b <;> simp [Phase.isInflight, Phase.isHolding]
      | finished => simp [Phase.isInflight, Phase.isHolding]
    omega

theorem step_preserves_slot_inv {s t : Sys} (hst : Step s t)
    (h : s.avail + holdingCount s = MAX_CONCURRENT_CALLS) :
    t.avail + holdingCount t = MAX_CONCURRENT_CALLS := by
  cases hst with
  | acquire a k rest =>
    simp [holdingCount, Multiset.countP_cons, Phase.isHolding] at h ⊢
    omega
  | startCall a k rest =>
    simp [holdingCount, Multiset.countP_cons, Phase.isHolding] at h ⊢
    omega
  | endCall a k rest =>
    simp [holdingCount, Multiset.countP_cons, Phase.isHolding] at h ⊢
    omega
  | release a rest =>
    simp [holdingCount, Multiset.countP_cons, Phase.isHolding] at h ⊢
    omega

theorem initSys_slot_inv (chunkCounts : Multiset Nat) :
    (initSys chunkCounts).avail + holdingCount (initSys chunkCounts) =
      MAX_CONCURRENT_CALLS := by
  unfold initSys holdingCount
  have h0 : Multiset.countP (fun ph => ph.isHolding = true)
      (chunkCounts.map Phase.waiting) = 0 := by
    rw [Multiset.countP_eq_zero]
    intro a ha
    obtain ⟨k, -, rfl⟩ := Multiset.mem_map.mp ha
    simp [Phase.isHolding]
  simp [h0]

/-- Claim C9: every inference request is sent only by a task holding one
of the `MAX_CONCURRENT_CALLS = 5` slots of the single process-wide
semaphore (every `session.post` in the source sits inside
`async with semaphore`, which the state space encodes: an in-flight
request exists only in the `holding` phase), so in every state reachable
from the start of a run — for any number of files, under any
interleaving — the number of simultaneously in-flight calls never exceeds
5. -/
theorem semaphore_bounds_inflight_calls (chunkCounts : Multiset Nat)
    (s : Sys) (h : Reachable (initSys chunkCounts) s) :
    inflightCount s ≤ MAX_CONCURRENT_CALLS := by
  have hinv : s.avail + holdingCount s = MAX_CONCURRENT_CALLS := by
    unfold Reachable at h
    induction h with
    | refl => exact initSys_slot_inv chunkCounts
    | tail hr hst ih => exact step_preserves_slot_inv hst ih
  have hle := inflight_le_holding s.tasks
  unfold inflightCount holdingCount at *
  omega

/-- Witness for C9: the 20-task initial state (each task with 3 pending
chunk requests) respects the bound. -/
theorem semaphore_bounds_inflight_calls_witness :
    inflightCount (initSys (Multiset.replicate 20 3)) ≤
      MAX_CONCURRENT_CALLS :=
  semaphore_bounds_inflight_calls (Multiset.replicate 20 3) _
    Relation.ReflTransGen.refl
